import Mathlib

/-!
# ServiceClientProxyManager

A shallow embedding of `src/service_client_proxy_manager.cpp`: the discovery
pass (`check_service_server_change` followed by the reconcile loop of
`start_discovery_service_servers_thread`) and the send / receive correlation
path (`get_send_index`, `async_send_request`, `service_client_callback`).

Conventions of the embedding

* The maps (`std::map` returned by `get_service_names_and_types`, and the
  members `registered_service_servers_info_` and
  `client_proxy_futures_with_info_`) are association lists with unique keys
  (`AList`); `operator[]`, `count`, `erase` are `AList` operations.
* A non-null `std::shared_ptr<rclcpp::GenericClient>` is a `GenericClient`;
  a nullable one (`SharedClientProxy`) is `Option GenericClient`, `none`
  being `nullptr`.
* `uint64_t` is a `Nat` reduced modulo `2 ^ 64`; `int64_t` sequence numbers
  are `Int`.
* The ROS node (`node_`) is the record `Node`, a snapshot of what the graph
  answers during one discovery pass.  Calls into `rclcpp` return normally;
  exceptions thrown by the library are not modelled.
-/

namespace ServiceLoadBalancing

/-! ## Data model -/

/-- The client object built by `node_->create_generic_client(service_name,
service_type)`. -/
structure GenericClient where
  service_name : String
  service_type : String
deriving DecidableEq, Repr

/-- `SharedClientProxy` of the source: a nullable shared pointer to a client. -/
abbrev SharedClientProxy := Option GenericClient

/-- Payload carried by a completed future (`future.get()`). -/
abbrev SharedResponse := Nat

/-- Request payload handed to `async_send_request`. -/
abbrev SharedRequest := Nat

/-- Width of the send index counter (`uint64_t`). -/
def UINT64_MOD : Nat := 2 ^ 64

/-- What `node_` answers during one pass: the graph query
`get_service_names_and_types` (a `std::map` from name to type list),
`count_services`, and the readiness probe `service_is_ready` of a client. -/
structure Node where
  get_service_names_and_types : AList (fun _ : String => List String)
  count_services : String → Nat
  service_is_ready : GenericClient → Bool

/-- Which of the two registration callbacks was invoked. -/
inductive CallbackKind where
  | add
  | remove
deriving DecidableEq, Repr

/-- The mutable members of `ServiceClientProxyManager`.  The two callbacks are
`std::function` objects whose effect is outside the manager: the model keeps
whether each is set and logs every invocation in `callback_log`. -/
structure ServiceClientProxyManager where
  base_service_name_ : String
  service_type_ : String
  add_callback_ : Bool
  remove_callback_ : Bool
  callback_log : List (CallbackKind × GenericClient)
  registered_service_servers_info_ : AList (fun _ : String => GenericClient)
  proxy_send_request_index : Nat
  client_proxy_futures_with_info_ : AList (fun _ : Nat => SharedClientProxy × Int)
  response_queue_ : List (SharedClientProxy × Int × SharedResponse)

/-- The manager right after construction: nothing registered, no callback set,
counter at zero, empty correlation table, (shared) response queue empty. -/
def ServiceClientProxyManager.fresh (base_service_name service_type : String) :
    ServiceClientProxyManager :=
  { base_service_name_ := base_service_name
    service_type_ := service_type
    add_callback_ := false
    remove_callback_ := false
    callback_log := []
    registered_service_servers_info_ := ∅
    proxy_send_request_index := 0
    client_proxy_futures_with_info_ := ∅
    response_queue_ := [] }

/-- `set_client_proxy_change_callback`; an empty `std::function` is `false`. -/
def set_client_proxy_change_callback (m : ServiceClientProxyManager)
    (func_add func_remove : Bool) : ServiceClientProxyManager :=
  { m with add_callback_ := func_add, remove_callback_ := func_remove }

/-! ## Discovery: the diff -/

section Discovery

/- The naming predicate `is_load_balancing_service` lives in `common.hpp`,
which is not part of this file: it is a parameter of everything that uses it. -/
variable (is_load_balancing_service : String → String → Bool)

/-- First loop of `check_service_server_change` (lines 121-133): names whose
type list contains `service_type_`, that follow the naming convention and
whose `count_services` is not zero, in the iteration order of the map. -/
def matched_service_name_list (node : Node) (m : ServiceClientProxyManager) :
    List String :=
  (node.get_service_names_and_types.entries.filter fun e =>
      decide (m.service_type_ ∈ e.2)
        && (is_load_balancing_service m.base_service_name_ e.1
          && decide (node.count_services e.1 ≠ 0))).map fun e => e.1

/-- Second loop (lines 135-142): matched names with
`registered_service_servers_info_.count(service_name) == 0`. -/
def new_servers (node : Node) (m : ServiceClientProxyManager) : List String :=
  (matched_service_name_list is_load_balancing_service node m).filter fun service_name =>
    decide (service_name ∉ m.registered_service_servers_info_)

/-- Third loop (lines 144-152): registered names whose client answers
`service_is_ready() == false`. -/
def del_servers (node : Node) (m : ServiceClientProxyManager) : List String :=
  (m.registered_service_servers_info_.entries.filter fun info =>
      !node.service_is_ready info.2).map fun info => info.1

/-- `check_service_server_change`: the pair (new servers, removed servers). -/
def check_service_server_change (node : Node) (m : ServiceClientProxyManager) :
    List String × List String :=
  (new_servers is_load_balancing_service node m, del_servers node m)

/-! ## Discovery: the reconcile loop -/

/-- `create_service_proxy`: `node_->create_generic_client(service_name,
service_type_)`. -/
def create_service_proxy (m : ServiceClientProxyManager) (service_name : String) :
    GenericClient :=
  { service_name := service_name, service_type := m.service_type_ }

/-- `add_new_load_balancing_service`:
`registered_service_servers_info_[new_services] = client_proxy`. -/
def add_new_load_balancing_service (m : ServiceClientProxyManager)
    (new_services : String) (client_proxy : GenericClient) : ServiceClientProxyManager :=
  { m with registered_service_servers_info_ :=
      m.registered_service_servers_info_.insert new_services client_proxy }

/-- `remove_load_balancing_service`:
`registered_service_servers_info_.erase(remove_service)`. -/
def remove_load_balancing_service (m : ServiceClientProxyManager)
    (remove_service : String) : ServiceClientProxyManager :=
  { m with registered_service_servers_info_ :=
      m.registered_service_servers_info_.erase remove_service }

/-- `get_created_client_proxy`: the registered client, or `nullptr`. -/
def get_created_client_proxy (m : ServiceClientProxyManager) (service_name : String) :
    SharedClientProxy :=
  if service_name ∈ m.registered_service_servers_info_ then
    m.registered_service_servers_info_.lookup service_name
  else
    none

/-- `register_new_client_proxy`: `false` when `add_callback_` is empty,
otherwise the callback is invoked and the result is `true`. -/
def register_new_client_proxy (m : ServiceClientProxyManager) (cli_proxy : GenericClient) :
    Bool × ServiceClientProxyManager :=
  if !m.add_callback_ then
    (false, m)
  else
    (true, { m with callback_log := m.callback_log ++ [(CallbackKind.add, cli_proxy)] })

/-- `unregister_client_proxy`: `false` when `remove_callback_` is empty,
otherwise the callback is invoked and the result is `true`. -/
def unregister_client_proxy (m : ServiceClientProxyManager) (cli_proxy : GenericClient) :
    Bool × ServiceClientProxyManager :=
  if !m.remove_callback_ then
    (false, m)
  else
    (true, { m with callback_log := m.callback_log ++ [(CallbackKind.remove, cli_proxy)] })

/-- Body of the loop over `change_info.first` (lines 50-59). -/
def found_new_service (m : ServiceClientProxyManager) (new_service : String) :
    ServiceClientProxyManager :=
  let client_proxy := create_service_proxy m new_service
  let r := register_new_client_proxy m client_proxy
  if r.1 then add_new_load_balancing_service r.2 new_service client_proxy else r.2

/-- Body of the loop over `change_info.second` (lines 62-71). -/
def found_removed_service (m : ServiceClientProxyManager) (removed_service : String) :
    ServiceClientProxyManager :=
  match get_created_client_proxy m removed_service with
  | none => m
  | some client_proxy =>
    let r := unregister_client_proxy m client_proxy
    if r.1 then remove_load_balancing_service r.2 removed_service else r.2

/-- One iteration of the loop of `start_discovery_service_servers_thread`
(lines 47-71, the wait on the condition variable left out): the diff, then
the arrivals, then the departures. -/
def discovery_pass (node : Node) (m : ServiceClientProxyManager) :
    ServiceClientProxyManager :=
  let change_info := check_service_server_change is_load_balancing_service node m
  let m1 := change_info.1.foldl found_new_service m
  change_info.2.foldl found_removed_service m1

end Discovery

/-! ## Dispatch and receive -/

/-- `proxy_send_request_index.load()`. -/
def load_send_index (m : ServiceClientProxyManager) : Nat :=
  m.proxy_send_request_index

/-- `proxy_send_request_index++` on a 64-bit unsigned counter. -/
def increment_send_index (m : ServiceClientProxyManager) : ServiceClientProxyManager :=
  { m with proxy_send_request_index := (m.proxy_send_request_index + 1) % UINT64_MOD }

/-- `get_send_index` run by one caller with no other caller in between:
load, increment, return the loaded value. -/
def get_send_index (m : ServiceClientProxyManager) : Nat × ServiceClientProxyManager :=
  let id := load_send_index m
  (id, increment_send_index m)

/-- Lines 241-245 of `async_send_request`:
`client_proxy_futures_with_info_[send_index] = (client_proxy, sequence)`. -/
def save_send_info (m : ServiceClientProxyManager) (send_index : Nat)
    (client_proxy : GenericClient) (sequence : Int) : ServiceClientProxyManager :=
  { m with client_proxy_futures_with_info_ :=
      m.client_proxy_futures_with_info_.insert send_index (some client_proxy, sequence) }

/-- `async_send_request` run without interruption.  `request_id` is the
sequence number the provider assigns when it accepts the request
(`future.request_id`).  The result is the returned `bool`, the value written
to the out-parameter `sequence`, and the new state. -/
def async_send_request (m : ServiceClientProxyManager) (client_proxy : GenericClient)
    (_request : SharedRequest) (request_id : Int) :
    Bool × Int × ServiceClientProxyManager :=
  let r := get_send_index m
  let send_index := r.1
  let sequence := request_id
  (true, sequence, save_send_info r.2 send_index client_proxy sequence)

/-- `operator[]` of the correlation table: an absent key is first inserted
with the value-initialised pair `(nullptr, 0)`. -/
def subscript (t : AList (fun _ : Nat => SharedClientProxy × Int)) (send_index : Nat) :
    (SharedClientProxy × Int) × AList (fun _ : Nat => SharedClientProxy × Int) :=
  match t.lookup send_index with
  | some v => (v, t)
  | none => ((none, 0), t.insert send_index (none, 0))

/-- Lines 258-262 of `service_client_callback`: read
`client_proxy_futures_with_info_[send_index]`, then erase the key. -/
def take_send_info (m : ServiceClientProxyManager) (send_index : Nat) :
    (SharedClientProxy × Int) × ServiceClientProxyManager :=
  let r := subscript m.client_proxy_futures_with_info_ send_index
  (r.1, { m with client_proxy_futures_with_info_ := r.2.erase send_index })

/-- Modelled from the spec: `ResponseReceiveQueue::enqueue` is not part of this
file; the spec has the receive path push the triple (provider handle,
sequence number, response payload) onto the response queue. -/
def enqueue (m : ServiceClientProxyManager) (client_proxy : SharedClientProxy)
    (sequence : Int) (response : SharedResponse) : ServiceClientProxyManager :=
  { m with response_queue_ := m.response_queue_ ++ [(client_proxy, sequence, response)] }

/-- `service_client_callback` run without interruption; `response` is
`future.get()`. -/
def service_client_callback (m : ServiceClientProxyManager) (response : SharedResponse)
    (send_index : Nat) : ServiceClientProxyManager :=
  let r := take_send_info m send_index
  enqueue r.2 r.1.1 r.1.2 response

/-! ## Sequential runs of sends and completions -/

/-- One operation of a sequential run. -/
inductive Op where
  | send (client_proxy : GenericClient) (request : SharedRequest) (request_id : Int)
  | completion (response : SharedResponse) (send_index : Nat)
deriving DecidableEq, Repr

/-- Effect of one operation on the manager. -/
def apply_op (m : ServiceClientProxyManager) : Op → ServiceClientProxyManager
  | Op.send client_proxy request request_id =>
      (async_send_request m client_proxy request request_id).2.2
  | Op.completion response send_index => service_client_callback m response send_index

/-- The state after a sequential run. -/
def run_ops (m : ServiceClientProxyManager) (ops : List Op) : ServiceClientProxyManager :=
  ops.foldl apply_op m

/-- Number of sends in a run. -/
def send_count : List Op → Nat
  | [] => 0
  | Op.send _ _ _ :: ops => send_count ops + 1
  | Op.completion _ _ :: ops => send_count ops

/-- The send indices handed out by the sends of a run, oldest first. -/
def send_indices : ServiceClientProxyManager → List Op → List Nat
  | _, [] => []
  | m, Op.send client_proxy request request_id :: ops =>
      (get_send_index m).1 ::
        send_indices (apply_op m (Op.send client_proxy request request_id)) ops
  | m, Op.completion response send_index :: ops =>
      send_indices (apply_op m (Op.completion response send_index)) ops

/-! ## Two callers inside `get_send_index`

`proxy_send_request_index` is a `std::atomic`: `load()` and `++` are each one
indivisible operation, and an execution of two callers is an interleaving of
these operations. -/

/-- Program point of one caller of `get_send_index`. -/
inductive IndexPc where
  | entry
  | loaded (id : Nat)
  | returned (id : Nat)
deriving DecidableEq, Repr

/-- Two threads, each running `get_send_index` once on the same manager. -/
structure TwoCallers where
  manager : ServiceClientProxyManager
  first : IndexPc
  second : IndexPc

/-- The next atomic operation of one caller: at `entry` it executes
`auto id = proxy_send_request_index.load()`, at `loaded id` it executes
`proxy_send_request_index++` and returns `id`. -/
def index_pc_step (m : ServiceClientProxyManager) :
    IndexPc → ServiceClientProxyManager × IndexPc
  | IndexPc.entry => (m, IndexPc.loaded (load_send_index m))
  | IndexPc.loaded id => (increment_send_index m, IndexPc.returned id)
  | IndexPc.returned id => (m, IndexPc.returned id)

/-- The scheduler lets one of the two callers run its next operation
(`false`: the first caller, `true`: the second). -/
def TwoCallers.step (s : TwoCallers) (second_runs : Bool) : TwoCallers :=
  if second_runs then
    let r := index_pc_step s.manager s.second
    { s with manager := r.1, second := r.2 }
  else
    let r := index_pc_step s.manager s.first
    { s with manager := r.1, first := r.2 }

/-- Run a schedule. -/
def TwoCallers.run (s : TwoCallers) (schedule : List Bool) : TwoCallers :=
  schedule.foldl TwoCallers.step s

/-- Both callers about to enter `get_send_index`. -/
def TwoCallers.start (m : ServiceClientProxyManager) : TwoCallers :=
  { manager := m, first := IndexPc.entry, second := IndexPc.entry }

/-! ## Sends and completions as a step relation

The steps are those of `async_send_request` (allocate the index, submit to the
provider, store the entry) and of `service_client_callback` (look up and
erase, enqueue).  The allocation is the two atomic operations of
`get_send_index`, the load and the increment, so the calls of several threads
interleave between them.  The store and the look-up-and-erase each run under
`client_proxy_futures_with_info_mutex_` and are one step each. -/

/-- Program point of one call of `async_send_request`: after the load of line
274, after the increment of line 275 (line 230 done), after the submission
(lines 236-238), after the store (lines 241-245). -/
inductive SendPc where
  | loaded
  | allocated
  | submitted (sequence : Int)
  | stored (sequence : Int)
deriving DecidableEq, Repr

/-- Program point of the completion callback of one request: not yet invoked,
entry read and erased (lines 255-262), item enqueued (lines 265-268). -/
inductive CallbackPc where
  | waiting
  | took (info : SharedClientProxy × Int) (response : SharedResponse)
  | done (info : SharedClientProxy × Int) (response : SharedResponse)
deriving DecidableEq, Repr

/-- One call of `async_send_request` together with its completion callback
(the lambda capturing `send_index`). -/
structure SendCall where
  client_proxy : GenericClient
  send_index : Nat
  send_pc : SendPc
  callback_pc : CallbackPc
deriving DecidableEq, Repr

/-- The manager and every send call started so far, oldest first. -/
structure System where
  manager : ServiceClientProxyManager
  calls : List SendCall

/-- The steps.  `call` is the position of a send call in `System.calls`. -/
inductive Action where
  | load (client_proxy : GenericClient)
  | increment (call : Nat)
  | submit (call : Nat) (request_id : Int)
  | store (call : Nat)
  | take (call : Nat) (response : SharedResponse)
  | push (call : Nat)
deriving DecidableEq, Repr

/-- One step; `none` when the step is not enabled.
* `load`: a new call enters `get_send_index` and executes the load of line
  274; its send index is the value loaded.
* `increment`: a call that has loaded executes line 275 and returns its index.
* `submit`: the provider accepts the request of a call that has its index and
  answers with `request_id` (lines 236-238).
* `store`: lines 241-245.
* `take`: the transport delivers the completion of an accepted request, once;
  the callback executes lines 255-262.
* `push`: the callback executes lines 265-268. -/
def System.step (s : System) : Action → Option System
  | Action.load client_proxy =>
    some { manager := s.manager
           calls := s.calls ++
             [{ client_proxy := client_proxy, send_index := load_send_index s.manager,
                send_pc := SendPc.loaded, callback_pc := CallbackPc.waiting }] }
  | Action.increment call =>
    match s.calls[call]? with
    | none => none
    | some c =>
      match c.send_pc with
      | SendPc.loaded =>
        some { manager := increment_send_index s.manager
               calls := s.calls.set call { c with send_pc := SendPc.allocated } }
      | _ => none
  | Action.submit call request_id =>
    match s.calls[call]? with
    | none => none
    | some c =>
      match c.send_pc with
      | SendPc.allocated =>
        some { s with calls := s.calls.set call { c with send_pc := SendPc.submitted request_id } }
      | _ => none
  | Action.store call =>
    match s.calls[call]? with
    | none => none
    | some c =>
      match c.send_pc with
      | SendPc.submitted sequence =>
        some { manager := save_send_info s.manager c.send_index c.client_proxy sequence
               calls := s.calls.set call { c with send_pc := SendPc.stored sequence } }
      | _ => none
  | Action.take call response =>
    match s.calls[call]? with
    | none => none
    | some c =>
      match c.send_pc, c.callback_pc with
      | SendPc.loaded, _ => none
      | SendPc.allocated, _ => none
      | _, CallbackPc.waiting =>
        let r := take_send_info s.manager c.send_index
        some { manager := r.2
               calls := s.calls.set call { c with callback_pc := CallbackPc.took r.1 response } }
      | _, _ => none
  | Action.push call =>
    match s.calls[call]? with
    | none => none
    | some c =>
      match c.callback_pc with
      | CallbackPc.took info response =>
        some { manager := enqueue s.manager info.1 info.2 response
               calls := s.calls.set call { c with callback_pc := CallbackPc.done info response } }
      | _ => none

/-- Run a list of steps; `none` as soon as one is not enabled. -/
def System.run (s : System) : List Action → Option System
  | [] => some s
  | a :: rest => (s.step a).bind fun s1 => s1.run rest

/-- A manager on which no send has started. -/
def System.start (m : ServiceClientProxyManager) : System :=
  { manager := m, calls := [] }

/-- What the callback of a request has read from the table, once it has run. -/
def CallbackPc.info : CallbackPc → Option (SharedClientProxy × Int)
  | CallbackPc.waiting => none
  | CallbackPc.took info _ => some info
  | CallbackPc.done info _ => some info

/-- What the table holds at the index of one call (`entry`), given how far
the call and its callback have got.  Before the store there is no entry, and a
callback that ran then read `(nullptr, 0)`.  After the store the entry is
there until the callback runs; a callback that ran after the store read the
entry and erased it; one that ran before the store read `(nullptr, 0)` and the
entry stays. -/
def SendCall.consistent (entry : Option (SharedClientProxy × Int)) (c : SendCall) : Prop :=
  match c.send_pc, c.callback_pc.info with
  | SendPc.loaded, none => entry = none
  | SendPc.loaded, some _ => False
  | SendPc.allocated, none => entry = none
  | SendPc.allocated, some _ => False
  | SendPc.submitted _, none => entry = none
  | SendPc.submitted _, some info => info = (none, 0) ∧ entry = none
  | SendPc.stored sequence, none => entry = some (some c.client_proxy, sequence)
  | SendPc.stored sequence, some info =>
    (info = (some c.client_proxy, sequence) ∧ entry = none) ∨
      (info = (none, 0) ∧ entry = some (some c.client_proxy, sequence))

/-- The call at position `call` is the only one that holds `send_index`. -/
def System.sole_holder (s : System) (call send_index : Nat) : Prop :=
  ∀ (other : Nat) (b : SendCall),
    s.calls[other]? = some b → b.send_index = send_index → other = call

/-- The invariant of the step relation: every key of the table is the send
index of some call, and a call that shares its send index with no other call
is consistent with the table entry under that index. -/
def System.invariant (s : System) : Prop :=
  (∀ key, key ∈ s.manager.client_proxy_futures_with_info_ →
    ∃ (i : Nat) (c : SendCall), s.calls[i]? = some c ∧ c.send_index = key) ∧
  ∀ (i : Nat) (c : SendCall), s.calls[i]? = some c → s.sole_holder i c.send_index →
    SendCall.consistent (s.manager.client_proxy_futures_with_info_.lookup c.send_index) c

/-- What a step keeps of a call: its handle and index, a `stored` program
point, and what its callback has read. -/
def SendCall.kept (c c1 : SendCall) : Prop :=
  c1.client_proxy = c.client_proxy ∧ c1.send_index = c.send_index ∧
    (∀ sequence, c.send_pc = SendPc.stored sequence → c1.send_pc = SendPc.stored sequence) ∧
    (∀ info, c.callback_pc.info = some info → c1.callback_pc.info = some info)

/-! ## Concrete inputs -/

/-- A naming predicate for the examples: the candidate name starts with the
base service name. -/
def demo_predicate : String → String → Bool :=
  fun base_service_name service_name =>
    base_service_name.toList.isPrefixOf service_name.toList

/-- A registry report with two providers of type `srv/Add`; only the client of
`add/s2` answers that it is ready. -/
def demo_node : Node :=
  { get_service_names_and_types :=
      AList.insert "add/s2" ["srv/Add"] (AList.singleton "add/s1" ["srv/Add", "srv/Other"])
    count_services := fun _ => 1
    service_is_ready := fun client => decide (client.service_name = "add/s2") }

/-- A manager with both callbacks set and one registered provider, `add/s0`. -/
def demo_manager : ServiceClientProxyManager :=
  { ServiceClientProxyManager.fresh "add" "srv/Add" with
    add_callback_ := true
    remove_callback_ := true
    registered_service_servers_info_ :=
      AList.singleton "add/s0" { service_name := "add/s0", service_type := "srv/Add" } }

/-- The same manager with no callback set. -/
def demo_manager_unset : ServiceClientProxyManager :=
  set_client_proxy_change_callback demo_manager false false

/-- A client handle for the examples. -/
def demo_client : GenericClient :=
  { service_name := "add/s0", service_type := "srv/Add" }

/-- A sequential run: two sends, then the completion of the first. -/
def demo_ops : List Op :=
  [Op.send demo_client 0 5, Op.send demo_client 1 6, Op.completion 42 0]

/-- A second client handle for the examples. -/
def demo_client_b : GenericClient :=
  { service_name := "add/s1", service_type := "srv/Add" }

/-- A run of the step relation: one call loads, increments, submits and
stores. -/
def demo_actions : List Action :=
  [Action.load demo_client, Action.increment 0, Action.submit 0 5, Action.store 0]

/-- A run of the step relation in which two calls load the counter before
either increments it, then both submit and store. -/
def demo_actions_shared : List Action :=
  [Action.load demo_client, Action.load demo_client_b, Action.increment 0, Action.increment 1,
    Action.submit 0 5, Action.submit 1 6, Action.store 0, Action.store 1]

/-- The state reached by `demo_actions` from a fresh manager. -/
def demo_system : System :=
  { manager :=
      save_send_info (increment_send_index (ServiceClientProxyManager.fresh "add" "srv/Add")) 0
        demo_client 5
    calls :=
      [{ client_proxy := demo_client, send_index := 0, send_pc := SendPc.stored 5,
         callback_pc := CallbackPc.waiting }] }

/-! ## The diff: arrivals and departures -/

section DiscoveryTheorems

variable (is_load_balancing_service : String → String → Bool)

theorem mem_matched_service_name_list (node : Node) (m : ServiceClientProxyManager)
    (name : String) :
    name ∈ matched_service_name_list is_load_balancing_service node m ↔
      (∃ types, node.get_service_names_and_types.lookup name = some types ∧
          m.service_type_ ∈ types) ∧
        is_load_balancing_service m.base_service_name_ name = true ∧
        node.count_services name ≠ 0 := by
  unfold matched_service_name_list
  simp only [List.mem_map, List.mem_filter, Bool.and_eq_true, decide_eq_true_eq]
  constructor
  · rintro ⟨⟨key, types⟩, ⟨hmem, htype, hname, hcount⟩, rfl⟩
    exact ⟨⟨types, AList.mem_lookup_iff.mpr hmem, htype⟩, hname, hcount⟩
  · rintro ⟨⟨types, hlook, htype⟩, hname, hcount⟩
    exact ⟨⟨name, types⟩, ⟨AList.mem_lookup_iff.mp hlook, htype, hname, hcount⟩, rfl⟩

theorem mem_del_servers (node : Node) (m : ServiceClientProxyManager) (name : String) :
    name ∈ del_servers node m ↔
      ∃ client, m.registered_service_servers_info_.lookup name = some client ∧
        node.service_is_ready client = false := by
  unfold del_servers
  simp only [List.mem_map, List.mem_filter, Bool.not_eq_true']
  constructor
  · rintro ⟨⟨key, client⟩, ⟨hmem, hready⟩, rfl⟩
    exact ⟨client, AList.mem_lookup_iff.mpr hmem, hready⟩
  · rintro ⟨client, hlook, hready⟩
    exact ⟨⟨name, client⟩, ⟨AList.mem_lookup_iff.mp hlook, hready⟩, rfl⟩

theorem del_servers_subset_keys (node : Node) (m : ServiceClientProxyManager)
    (name : String) (h : name ∈ del_servers node m) :
    name ∈ m.registered_service_servers_info_ := by
  obtain ⟨client, hlook, _⟩ := (mem_del_servers node m name).mp h
  exact AList.lookup_isSome.mp (by simp [hlook])

theorem mem_new_servers (node : Node) (m : ServiceClientProxyManager) (name : String) :
    name ∈ new_servers is_load_balancing_service node m ↔
      (∃ types, node.get_service_names_and_types.lookup name = some types ∧
          m.service_type_ ∈ types) ∧
        is_load_balancing_service m.base_service_name_ name = true ∧
        node.count_services name ≠ 0 ∧
        name ∉ m.registered_service_servers_info_ := by
  simp only [new_servers, List.mem_filter, decide_eq_true_eq, mem_matched_service_name_list]
  tauto

/-- C1: a name is in the arrival list of `check_service_server_change` exactly
when the registry report lists it with a type list containing the configured
service type, the naming predicate accepts it for the configured base name,
`count_services` of it is not zero, and it is not a key of the Provider
Registry. -/
theorem arrival_iff (node : Node) (m : ServiceClientProxyManager) (name : String) :
    name ∈ (check_service_server_change is_load_balancing_service node m).1 ↔
      (∃ types, node.get_service_names_and_types.lookup name = some types ∧
          m.service_type_ ∈ types) ∧
        is_load_balancing_service m.base_service_name_ name = true ∧
        node.count_services name ≠ 0 ∧
        name ∉ m.registered_service_servers_info_ := by
  exact mem_new_servers is_load_balancing_service node m name

/-- C2: the departure list of `check_service_server_change` holds exactly the
registered names whose client answers `service_is_ready() == false`, each
once; a registered name whose client is ready is not in it; and the list is
the same for every registry report, count function, naming predicate, base
name and service type, as long as the registry and the readiness probe are the
same. -/
theorem departure_iff (node : Node) (m : ServiceClientProxyManager) :
    (∀ name, name ∈ (check_service_server_change is_load_balancing_service node m).2 ↔
      ∃ client, m.registered_service_servers_info_.lookup name = some client ∧
        node.service_is_ready client = false) ∧
    (check_service_server_change is_load_balancing_service node m).2.Nodup ∧
    (∀ name client, m.registered_service_servers_info_.lookup name = some client →
      node.service_is_ready client = true →
      name ∉ (check_service_server_change is_load_balancing_service node m).2) ∧
    (∀ (other_predicate : String → String → Bool) (other_node : Node)
        (other_m : ServiceClientProxyManager),
      other_node.service_is_ready = node.service_is_ready →
      other_m.registered_service_servers_info_ = m.registered_service_servers_info_ →
      (check_service_server_change other_predicate other_node other_m).2 =
        (check_service_server_change is_load_balancing_service node m).2) := by
  refine ⟨fun name => mem_del_servers node m name, ?_, ?_, ?_⟩
  · have hkeys : m.registered_service_servers_info_.keys.Nodup :=
      m.registered_service_servers_info_.keys_nodup
    have hsub : List.Sublist (del_servers node m) m.registered_service_servers_info_.keys := by
      unfold del_servers AList.keys List.keys
      exact List.Sublist.map _ (List.filter_sublist _)
    exact hsub.nodup hkeys
  · intro name client hlook hready hmem
    obtain ⟨client2, hlook2, hready2⟩ := (mem_del_servers node m name).mp hmem
    rw [hlook] at hlook2
    cases hlook2
    rw [hready] at hready2
    cases hready2
  · intro other_predicate other_node other_m hready hreg
    simp only [check_service_server_change, del_servers, hready, hreg]

/-- C3: in one call of `check_service_server_change` no name is both in the
arrival list and in the departure list. -/
theorem arrival_departure_disjoint (node : Node) (m : ServiceClientProxyManager) :
    List.Disjoint (check_service_server_change is_load_balancing_service node m).1
      (check_service_server_change is_load_balancing_service node m).2 := by
  intro name harr hdep
  have hnot := ((mem_new_servers is_load_balancing_service node m name).mp harr).2.2.2
  exact hnot (del_servers_subset_keys node m name hdep)

/-! ## The reconcile loop -/

theorem found_new_service_eq (m : ServiceClientProxyManager) (name : String)
    (hadd : m.add_callback_ = true) :
    found_new_service m name =
      { m with
        callback_log := m.callback_log ++ [(CallbackKind.add, create_service_proxy m name)]
        registered_service_servers_info_ :=
          m.registered_service_servers_info_.insert name (create_service_proxy m name) } := by
  simp [found_new_service, register_new_client_proxy, add_new_load_balancing_service, hadd]

theorem found_new_service_unset (m : ServiceClientProxyManager) (name : String)
    (hadd : m.add_callback_ = false) : found_new_service m name = m := by
  simp [found_new_service, register_new_client_proxy, hadd]

theorem found_removed_service_unset (m : ServiceClientProxyManager) (name : String)
    (hrem : m.remove_callback_ = false) : found_removed_service m name = m := by
  unfold found_removed_service
  cases get_created_client_proxy m name with
  | none => rfl
  | some client => simp [unregister_client_proxy, hrem]

theorem get_created_client_proxy_eq (m : ServiceClientProxyManager) (name : String) :
    get_created_client_proxy m name = m.registered_service_servers_info_.lookup name := by
  unfold get_created_client_proxy
  split
  · rfl
  · next h => exact (AList.lookup_eq_none.mpr h).symm

theorem found_removed_service_lookup (m : ServiceClientProxyManager) (removed name : String)
    (hrem : m.remove_callback_ = true) :
    (found_removed_service m removed).registered_service_servers_info_.lookup name =
      if name = removed then none else m.registered_service_servers_info_.lookup name := by
  unfold found_removed_service
  rw [get_created_client_proxy_eq]
  cases hlook : m.registered_service_servers_info_.lookup removed with
  | none =>
    by_cases h : name = removed
    · subst h
      simp [hlook]
    · simp [h]
  | some client =>
    by_cases h : name = removed
    · subst h
      simp [unregister_client_proxy, remove_load_balancing_service, hrem]
    · simp [unregister_client_proxy, remove_load_balancing_service, hrem, h,
        AList.lookup_erase_ne h]

theorem found_removed_service_flags (m : ServiceClientProxyManager) (removed : String) :
    (found_removed_service m removed).remove_callback_ = m.remove_callback_ := by
  unfold found_removed_service
  cases get_created_client_proxy m removed with
  | none => rfl
  | some client =>
    by_cases h : m.remove_callback_ = true
    · simp [unregister_client_proxy, remove_load_balancing_service, h]
    · simp [unregister_client_proxy, h]

theorem foldl_found_new_service (names : List String) :
    ∀ m : ServiceClientProxyManager, m.add_callback_ = true →
      ((names.foldl found_new_service m).service_type_ = m.service_type_ ∧
        (names.foldl found_new_service m).base_service_name_ = m.base_service_name_ ∧
        (names.foldl found_new_service m).remove_callback_ = m.remove_callback_) ∧
      ∀ name, (names.foldl found_new_service m).registered_service_servers_info_.lookup name =
        if name ∈ names then some { service_name := name, service_type := m.service_type_ }
        else m.registered_service_servers_info_.lookup name := by
  induction names with
  | nil => intro m _; simp
  | cons first rest ih =>
    intro m hadd
    have hstep := found_new_service_eq m first hadd
    have hadd1 : (found_new_service m first).add_callback_ = true := by rw [hstep]; exact hadd
    obtain ⟨⟨htype, hbase, hremove⟩, hlook⟩ := ih (found_new_service m first) hadd1
    rw [List.foldl_cons]
    refine ⟨⟨?_, ?_, ?_⟩, ?_⟩
    · rw [htype, hstep]
    · rw [hbase, hstep]
    · rw [hremove, hstep]
    · intro name
      rw [hlook name]
      by_cases hrest : name ∈ rest
      · simp [hrest, hstep]
      · by_cases hfirst : name = first
        · subst hfirst
          simp [hrest, hstep, create_service_proxy]
        · simp [hrest, hfirst, hstep, AList.lookup_insert_ne hfirst]

theorem foldl_found_removed_service (names : List String) :
    ∀ m : ServiceClientProxyManager, m.remove_callback_ = true →
      ∀ name, (names.foldl found_removed_service m).registered_service_servers_info_.lookup name =
        if name ∈ names then none else m.registered_service_servers_info_.lookup name := by
  induction names with
  | nil => intro m _; simp
  | cons first rest ih =>
    intro m hrem name
    have hrem1 : (found_removed_service m first).remove_callback_ = true := by
      rw [found_removed_service_flags]; exact hrem
    rw [List.foldl_cons, ih _ hrem1 name, found_removed_service_lookup m first name hrem]
    by_cases hrest : name ∈ rest
    · simp [hrest]
    · by_cases hfirst : name = first
      · simp [hfirst]
      · simp [hrest, hfirst]

theorem foldl_found_new_service_unset (names : List String) (m : ServiceClientProxyManager)
    (hadd : m.add_callback_ = false) : names.foldl found_new_service m = m := by
  induction names with
  | nil => rfl
  | cons first rest ih => rw [List.foldl_cons, found_new_service_unset m first hadd, ih]

theorem foldl_found_removed_service_unset (names : List String)
    (m : ServiceClientProxyManager) (hrem : m.remove_callback_ = false) :
    names.foldl found_removed_service m = m := by
  induction names with
  | nil => rfl
  | cons first rest ih => rw [List.foldl_cons, found_removed_service_unset m first hrem, ih]

/-- The registry after one discovery pass with both callbacks set. -/
theorem discovery_pass_lookup (node : Node) (m : ServiceClientProxyManager)
    (hadd : m.add_callback_ = true) (hrem : m.remove_callback_ = true) (name : String) :
    (discovery_pass is_load_balancing_service node m).registered_service_servers_info_.lookup
        name =
      if name ∈ del_servers node m then none
      else if name ∈ new_servers is_load_balancing_service node m then
        some { service_name := name, service_type := m.service_type_ }
      else m.registered_service_servers_info_.lookup name := by
  unfold discovery_pass check_service_server_change
  obtain ⟨⟨_, _, hremove⟩, hlook⟩ :=
    foldl_found_new_service (new_servers is_load_balancing_service node m) m hadd
  simp only
  rw [foldl_found_removed_service _ _ (hremove.trans hrem) name, hlook name]

/-- C4: with both callbacks set, one discovery pass takes the registry to the
one whose keys are the old keys and the arrivals, minus the departures; an
arrival is mapped to the client whose service name is the arrival's name and
whose service type is the configured `service_type_`, a departure is absent,
every other name keeps its entry.  From an empty
registry and exactly one matching connectable provider the registry ends as
that single entry, and a registered provider whose readiness probe answers
false is not registered after the pass. -/
theorem discovery_pass_registry (node : Node) (m : ServiceClientProxyManager)
    (hadd : m.add_callback_ = true) (hrem : m.remove_callback_ = true) :
    (∀ name, name ∈ (discovery_pass is_load_balancing_service node m).registered_service_servers_info_ ↔
      (name ∈ m.registered_service_servers_info_ ∨
          name ∈ (check_service_server_change is_load_balancing_service node m).1) ∧
        name ∉ (check_service_server_change is_load_balancing_service node m).2) ∧
    (∀ name, name ∈ (check_service_server_change is_load_balancing_service node m).1 →
      (discovery_pass is_load_balancing_service node m).registered_service_servers_info_.lookup name =
        some { service_name := name, service_type := m.service_type_ }) ∧
    (∀ name, name ∈ (check_service_server_change is_load_balancing_service node m).2 →
      name ∉ (discovery_pass is_load_balancing_service node m).registered_service_servers_info_) ∧
    (∀ name, name ∉ (check_service_server_change is_load_balancing_service node m).1 →
      name ∉ (check_service_server_change is_load_balancing_service node m).2 →
      (discovery_pass is_load_balancing_service node m).registered_service_servers_info_.lookup name =
        m.registered_service_servers_info_.lookup name) ∧
    (∀ name, m.registered_service_servers_info_ = ∅ →
      matched_service_name_list is_load_balancing_service node m = [name] →
      (discovery_pass is_load_balancing_service node m).registered_service_servers_info_ =
        AList.singleton name { service_name := name, service_type := m.service_type_ }) ∧
    (∀ name client, m.registered_service_servers_info_.lookup name = some client →
      node.service_is_ready client = false →
      name ∉ (discovery_pass is_load_balancing_service node m).registered_service_servers_info_) := by
  have hlook := discovery_pass_lookup is_load_balancing_service node m hadd hrem
  have hdisj : ∀ name, name ∈ new_servers is_load_balancing_service node m →
      name ∉ del_servers node m := fun name harr hdep =>
    ((mem_new_servers is_load_balancing_service node m name).mp harr).2.2.2
      (del_servers_subset_keys node m name hdep)
  simp only [check_service_server_change]
  refine ⟨?_, ?_, ?_, ?_, ?_, ?_⟩
  · intro name
    rw [← AList.lookup_isSome, hlook name]
    by_cases hdep : name ∈ del_servers node m
    · simp [hdep]
    · by_cases harr : name ∈ new_servers is_load_balancing_service node m
      · simp [hdep, harr]
      · simp [hdep, harr, AList.lookup_isSome]
  · intro name harr
    rw [hlook name, if_neg (hdisj name harr), if_pos harr]
  · intro name hdep
    rw [← AList.lookup_eq_none, hlook name, if_pos hdep]
  · intro name harr hdep
    rw [hlook name, if_neg hdep, if_neg harr]
  · intro name hempty hmatched
    have hnew : new_servers is_load_balancing_service node m = [name] := by
      simp [new_servers, hmatched, hempty]
    have hdel : del_servers node m = [] := by
      simp [del_servers, hempty]
    unfold discovery_pass check_service_server_change
    simp only [hnew, hdel, List.foldl_cons, List.foldl_nil]
    rw [found_new_service_eq m name hadd]
    simp only [hempty]
    exact AList.insert_empty _ _
  · intro name client hclient hready
    rw [← AList.lookup_eq_none, hlook name,
      if_pos ((mem_del_servers node m name).mpr ⟨client, hclient, hready⟩)]

/-- At `demo_manager` and `demo_node` the hypotheses of C4 hold and the pass
replaces the unready `add/s0` by the two reported providers. -/
theorem discovery_pass_registry_witness :
    demo_manager.add_callback_ = true ∧ demo_manager.remove_callback_ = true ∧
      "add/s0" ∉ (discovery_pass demo_predicate demo_node
        demo_manager).registered_service_servers_info_ ∧
      (discovery_pass demo_predicate demo_node
        demo_manager).registered_service_servers_info_.lookup "add/s1" =
          some { service_name := "add/s1", service_type := "srv/Add" } :=
  ⟨rfl, rfl,
    (discovery_pass_registry demo_predicate demo_node demo_manager rfl rfl).2.2.1
      "add/s0" (by decide),
    (discovery_pass_registry demo_predicate demo_node demo_manager rfl rfl).2.1
      "add/s1" (by decide)⟩

/-- C5: with neither callback set a discovery pass leaves the manager, and so
the Provider Registry, as it was, whatever the registry report; a name that
was an arrival of that pass is an arrival of the next pass for every report in
which it still matches. -/
theorem discovery_pass_unset (node : Node) (m : ServiceClientProxyManager)
    (hadd : m.add_callback_ = false) (hrem : m.remove_callback_ = false) :
    (discovery_pass is_load_balancing_service node m).registered_service_servers_info_ =
        m.registered_service_servers_info_ ∧
    discovery_pass is_load_balancing_service node m = m ∧
    (∀ (next_node : Node) (name : String),
      name ∈ (check_service_server_change is_load_balancing_service node m).1 →
      name ∈ matched_service_name_list is_load_balancing_service next_node m →
      name ∈ (check_service_server_change is_load_balancing_service next_node
        (discovery_pass is_load_balancing_service node m)).1) := by
  have hsame : discovery_pass is_load_balancing_service node m = m := by
    unfold discovery_pass
    simp only
    rw [foldl_found_new_service_unset _ m hadd, foldl_found_removed_service_unset _ m hrem]
  refine ⟨by rw [hsame], hsame, ?_⟩
  intro next_node name harr hmatched
  rw [hsame]
  have hnot := ((mem_new_servers is_load_balancing_service node m name).mp harr).2.2.2
  simp only [check_service_server_change, new_servers, List.mem_filter, decide_eq_true_eq]
  exact ⟨hmatched, hnot⟩

/-- At `demo_manager_unset` no callback is set; the pass changes nothing and
`add/s1` is an arrival again. -/
theorem discovery_pass_unset_witness :
    demo_manager_unset.add_callback_ = false ∧ demo_manager_unset.remove_callback_ = false ∧
      discovery_pass demo_predicate demo_node demo_manager_unset = demo_manager_unset ∧
      "add/s1" ∈ (check_service_server_change demo_predicate demo_node
        (discovery_pass demo_predicate demo_node demo_manager_unset)).1 :=
  ⟨rfl, rfl, (discovery_pass_unset demo_predicate demo_node demo_manager_unset rfl rfl).2.1,
    (discovery_pass_unset demo_predicate demo_node demo_manager_unset rfl rfl).2.2
      demo_node "add/s1" (by decide) (by decide)⟩

end DiscoveryTheorems

/-! ## Dispatch and receive, one call at a time -/

theorem subscript_erase (t : AList (fun _ : Nat => SharedClientProxy × Int)) (send_index : Nat) :
    (subscript t send_index).2.erase send_index = t.erase send_index := by
  unfold subscript
  cases h : t.lookup send_index with
  | some v => rfl
  | none =>
    apply AList.ext
    simp [AList.insert, AList.erase, List.kinsert, List.kerase_cons_eq]

theorem subscript_value (t : AList (fun _ : Nat => SharedClientProxy × Int)) (send_index : Nat) :
    (subscript t send_index).1 = (t.lookup send_index).getD (none, 0) := by
  unfold subscript
  cases h : t.lookup send_index with
  | some v => rfl
  | none => rfl

theorem service_client_callback_eq (m : ServiceClientProxyManager) (response : SharedResponse)
    (send_index : Nat) :
    service_client_callback m response send_index =
      { m with
        client_proxy_futures_with_info_ := m.client_proxy_futures_with_info_.erase send_index
        response_queue_ := m.response_queue_ ++
          [(((m.client_proxy_futures_with_info_.lookup send_index).getD (none, 0)).1,
            ((m.client_proxy_futures_with_info_.lookup send_index).getD (none, 0)).2,
            response)] } := by
  simp [service_client_callback, take_send_info, enqueue, subscript_erase, subscript_value]

theorem async_send_request_eq (m : ServiceClientProxyManager) (client_proxy : GenericClient)
    (request : SharedRequest) (request_id : Int) :
    async_send_request m client_proxy request request_id =
      (true, request_id,
        { m with
          proxy_send_request_index := (m.proxy_send_request_index + 1) % UINT64_MOD
          client_proxy_futures_with_info_ :=
            m.client_proxy_futures_with_info_.insert m.proxy_send_request_index
              (some client_proxy, request_id) }) := by
  rfl

/-- C7: when the table maps the send index of a completion to `(h, s)`,
`service_client_callback` erases that key and no other, leaves no entry for
it, and appends the single item `(h, s, response)` to the response queue. -/
theorem service_client_callback_recorded (m : ServiceClientProxyManager)
    (response : SharedResponse) (send_index : Nat) (client_proxy : SharedClientProxy)
    (sequence : Int)
    (hentry : m.client_proxy_futures_with_info_.lookup send_index =
      some (client_proxy, sequence)) :
    (service_client_callback m response send_index).client_proxy_futures_with_info_ =
        m.client_proxy_futures_with_info_.erase send_index ∧
    (service_client_callback m response send_index).client_proxy_futures_with_info_.lookup
        send_index = none ∧
    (∀ other, other ≠ send_index →
      (service_client_callback m response send_index).client_proxy_futures_with_info_.lookup
        other = m.client_proxy_futures_with_info_.lookup other) ∧
    (service_client_callback m response send_index).response_queue_ =
      m.response_queue_ ++ [(client_proxy, sequence, response)] := by
  rw [service_client_callback_eq]
  refine ⟨rfl, AList.lookup_erase _ _, fun other hne => AList.lookup_erase_ne hne, ?_⟩
  simp [hentry]

/-- C8 as the code has it: when the table has no entry for the send index,
`service_client_callback` still returns normally, leaves every lookup of the
table as it was, and appends the item `(nullptr, 0, response)` to the queue. -/
theorem service_client_callback_unrecorded (m : ServiceClientProxyManager)
    (response : SharedResponse) (send_index : Nat)
    (habsent : m.client_proxy_futures_with_info_.lookup send_index = none) :
    (∀ key, (service_client_callback m response send_index).client_proxy_futures_with_info_.lookup
        key = m.client_proxy_futures_with_info_.lookup key) ∧
    (service_client_callback m response send_index).response_queue_ =
      m.response_queue_ ++ [(none, 0, response)] := by
  rw [service_client_callback_eq]
  constructor
  · intro key
    by_cases hkey : key = send_index
    · subst hkey
      simp [habsent]
    · exact AList.lookup_erase_ne hkey
  · simp [habsent]

/-! ## Sequential runs -/

theorem apply_op_counter (m : ServiceClientProxyManager) (op : Op) :
    (apply_op m op).proxy_send_request_index =
      match op with
      | Op.send _ _ _ => (m.proxy_send_request_index + 1) % UINT64_MOD
      | Op.completion _ _ => m.proxy_send_request_index := by
  cases op with
  | send client_proxy request request_id => rfl
  | completion response send_index =>
    simp only [apply_op, service_client_callback_eq]

theorem apply_op_keys (m : ServiceClientProxyManager) (op : Op) (key : Nat)
    (hkey : key ∈ (apply_op m op).client_proxy_futures_with_info_) :
    key ∈ m.client_proxy_futures_with_info_ ∨
      ∃ client_proxy request request_id,
        op = Op.send client_proxy request request_id ∧ key = m.proxy_send_request_index := by
  cases op with
  | send client_proxy request request_id =>
    simp only [apply_op, async_send_request_eq, AList.mem_insert] at hkey
    rcases hkey with h | h
    · exact Or.inr ⟨client_proxy, request, request_id, rfl, h⟩
    · exact Or.inl h
  | completion response send_index =>
    simp only [apply_op, service_client_callback_eq, AList.mem_erase] at hkey
    exact Or.inl hkey.2

/-- Along a run that starts with the counter at `n` modulo `2 ^ 64` and every
key of the table below `n`, the counter follows the number of sends and the
keys stay below it. -/
theorem run_ops_invariant (ops : List Op) :
    ∀ (m : ServiceClientProxyManager) (n : Nat),
      m.proxy_send_request_index = n % UINT64_MOD →
      (∀ key, key ∈ m.client_proxy_futures_with_info_ → key < n) →
      (run_ops m ops).proxy_send_request_index = (n + send_count ops) % UINT64_MOD ∧
      (∀ key, key ∈ (run_ops m ops).client_proxy_futures_with_info_ →
        key < n + send_count ops) := by
  induction ops with
  | nil => intro m n hcounter hkeys; exact ⟨by simpa [run_ops, send_count] using hcounter,
      by simpa [run_ops, send_count] using hkeys⟩
  | cons op rest ih =>
    intro m n hcounter hkeys
    cases op with
    | send client_proxy request request_id =>
      have hc : (apply_op m (Op.send client_proxy request request_id)).proxy_send_request_index =
          (n + 1) % UINT64_MOD := by
        rw [apply_op_counter, hcounter]
        simp [Nat.add_mod]
      have hk : ∀ key, key ∈ (apply_op m (Op.send client_proxy request
          request_id)).client_proxy_futures_with_info_ → key < n + 1 := by
        intro key hkey
        rcases apply_op_keys m _ key hkey with h | ⟨_, _, _, _, h⟩
        · exact Nat.lt_succ_of_lt (hkeys key h)
        · rw [h, hcounter]
          exact Nat.lt_succ_of_le (Nat.mod_le _ _)
      have := ih _ (n + 1) hc hk
      simpa [run_ops, send_count, Nat.add_assoc, Nat.add_comm 1] using this
    | completion response send_index =>
      have hc : (apply_op m (Op.completion response send_index)).proxy_send_request_index =
          n % UINT64_MOD := by
        rw [apply_op_counter, hcounter]
      have hk : ∀ key, key ∈ (apply_op m (Op.completion response
          send_index)).client_proxy_futures_with_info_ → key < n := by
        intro key hkey
        rcases apply_op_keys m _ key hkey with h | ⟨_, _, _, h, _⟩
        · exact hkeys key h
        · cases h
      have := ih _ n hc hk
      simpa [run_ops, send_count] using this

theorem send_indices_bound (ops : List Op) :
    ∀ (m : ServiceClientProxyManager) (n : Nat),
      m.proxy_send_request_index = n % UINT64_MOD →
      ∀ index, index ∈ send_indices m ops →
        ∃ j, j < send_count ops ∧ index = (n + j) % UINT64_MOD := by
  induction ops with
  | nil => intro m n _ index hmem; simp [send_indices] at hmem
  | cons op rest ih =>
    intro m n hcounter index hmem
    cases op with
    | send client_proxy request request_id =>
      simp only [send_indices, List.mem_cons] at hmem
      rcases hmem with h | h
      · exact ⟨0, by simp [send_count], by rw [h]; simpa [get_send_index, load_send_index] using hcounter⟩
      · have hc : (apply_op m (Op.send client_proxy request request_id)).proxy_send_request_index =
            (n + 1) % UINT64_MOD := by
          rw [apply_op_counter, hcounter]
          simp [Nat.add_mod]
        obtain ⟨j, hj, hindex⟩ := ih _ (n + 1) hc index h
        exact ⟨j + 1, by simpa [send_count] using hj, by rw [hindex]; congr 1; omega⟩
    | completion response send_index =>
      simp only [send_indices] at hmem
      have hc : (apply_op m (Op.completion response send_index)).proxy_send_request_index =
          n % UINT64_MOD := by
        rw [apply_op_counter, hcounter]
      obtain ⟨j, hj, hindex⟩ := ih _ n hc index hmem
      exact ⟨j, by simpa [send_count] using hj, hindex⟩

/-- C6: after any sequential run of sends and completions on a fresh manager
with fewer than `2 ^ 64` sends, `async_send_request` returns `true` and the
sequence number assigned by the provider; its send index is the number of
earlier sends, was handed to no earlier send and is not a key of the table;
afterwards the table maps it to (the handle passed, the returned sequence
number) and every other key is as before. -/
theorem async_send_request_adds_entry (base_service_name service_type : String)
    (ops : List Op) (client_proxy : GenericClient) (request : SharedRequest) (request_id : Int)
    (hcount : send_count ops < UINT64_MOD) :
    (async_send_request (run_ops (ServiceClientProxyManager.fresh base_service_name
        service_type) ops) client_proxy request request_id).1 = true ∧
    (async_send_request (run_ops (ServiceClientProxyManager.fresh base_service_name
        service_type) ops) client_proxy request request_id).2.1 = request_id ∧
    (get_send_index (run_ops (ServiceClientProxyManager.fresh base_service_name
        service_type) ops)).1 = send_count ops ∧
    (get_send_index (run_ops (ServiceClientProxyManager.fresh base_service_name
        service_type) ops)).1 ∉
      send_indices (ServiceClientProxyManager.fresh base_service_name service_type) ops ∧
    (get_send_index (run_ops (ServiceClientProxyManager.fresh base_service_name
        service_type) ops)).1 ∉
      (run_ops (ServiceClientProxyManager.fresh base_service_name
        service_type) ops).client_proxy_futures_with_info_ ∧
    (async_send_request (run_ops (ServiceClientProxyManager.fresh base_service_name
        service_type) ops) client_proxy request
        request_id).2.2.client_proxy_futures_with_info_.lookup
      (get_send_index (run_ops (ServiceClientProxyManager.fresh base_service_name
        service_type) ops)).1 = some (some client_proxy, request_id) ∧
    (∀ other, other ≠ (get_send_index (run_ops (ServiceClientProxyManager.fresh
        base_service_name service_type) ops)).1 →
      (async_send_request (run_ops (ServiceClientProxyManager.fresh base_service_name
        service_type) ops) client_proxy request
        request_id).2.2.client_proxy_futures_with_info_.lookup other =
      (run_ops (ServiceClientProxyManager.fresh base_service_name
        service_type) ops).client_proxy_futures_with_info_.lookup other) := by
  have hfresh : (ServiceClientProxyManager.fresh base_service_name
      service_type).proxy_send_request_index = 0 % UINT64_MOD := rfl
  obtain ⟨hcounter, hkeys⟩ := run_ops_invariant ops
    (ServiceClientProxyManager.fresh base_service_name service_type) 0 hfresh
    (fun key hkey => absurd hkey (AList.not_mem_empty key))
  rw [Nat.zero_add, Nat.mod_eq_of_lt hcount] at hcounter
  rw [Nat.zero_add] at hkeys
  have hindex : (get_send_index (run_ops (ServiceClientProxyManager.fresh base_service_name
      service_type) ops)).1 = send_count ops := hcounter
  rw [hindex, async_send_request_eq, hcounter]
  refine ⟨rfl, rfl, rfl, ?_, ?_, ?_, ?_⟩
  · intro hmem
    obtain ⟨j, hj, hsame⟩ := send_indices_bound ops _ 0 hfresh _ hmem
    rw [Nat.zero_add, Nat.mod_eq_of_lt (Nat.lt_trans hj hcount)] at hsame
    omega
  · intro hmem
    exact Nat.lt_irrefl _ (hkeys _ hmem)
  · exact AList.lookup_insert _
  · intro other hne
    exact AList.lookup_insert_ne hne

/-- After `demo_ops` the hypothesis of C6 holds; the next send gets index 2
and returns the provider's sequence number 7. -/
theorem async_send_request_adds_entry_witness :
    send_count demo_ops < UINT64_MOD ∧
      (get_send_index (run_ops (ServiceClientProxyManager.fresh "add" "srv/Add")
        demo_ops)).1 = send_count demo_ops ∧
      (async_send_request (run_ops (ServiceClientProxyManager.fresh "add" "srv/Add") demo_ops)
        demo_client 2 7).2.1 = 7 :=
  ⟨by decide,
    (async_send_request_adds_entry "add" "srv/Add" demo_ops demo_client 2 7 (by decide)).2.2.1,
    (async_send_request_adds_entry "add" "srv/Add" demo_ops demo_client 2 7 (by decide)).2.1⟩

/-- After one send on a fresh manager the table maps index 0 to the handle and
sequence number 5; the completion carrying 42 enqueues exactly that triple. -/
theorem service_client_callback_recorded_witness :
    (async_send_request (ServiceClientProxyManager.fresh "add" "srv/Add") demo_client 0
        5).2.2.client_proxy_futures_with_info_.lookup 0 = some (some demo_client, 5) ∧
      (service_client_callback
        (async_send_request (ServiceClientProxyManager.fresh "add" "srv/Add") demo_client 0 5).2.2
        42 0).response_queue_ = [] ++ [(some demo_client, 5, 42)] :=
  ⟨by decide,
    (service_client_callback_recorded
      (async_send_request (ServiceClientProxyManager.fresh "add" "srv/Add") demo_client 0 5).2.2
      42 0 (some demo_client) 5 (by decide)).2.2.2⟩

/-- On a fresh manager the table has no entry for index 7; the completion
carrying 42 enqueues `(nullptr, 0, 42)`. -/
theorem service_client_callback_unrecorded_witness :
    (ServiceClientProxyManager.fresh "add"
        "srv/Add").client_proxy_futures_with_info_.lookup 7 = none ∧
      (service_client_callback (ServiceClientProxyManager.fresh "add" "srv/Add") 42
        7).response_queue_ = [] ++ [(none, 0, 42)] :=
  ⟨by decide,
    (service_client_callback_unrecorded (ServiceClientProxyManager.fresh "add" "srv/Add") 42 7
      (by decide)).2⟩

/-- C8 fails on the code: a completion for index 7 on a fresh manager, whose
table has no entry for 7, returns normally and the response queue, empty
before, holds the item `(nullptr, 0, 42)` afterwards. -/
theorem service_client_callback_unrecorded_enqueues :
    (ServiceClientProxyManager.fresh "add"
        "srv/Add").client_proxy_futures_with_info_.lookup 7 = none ∧
      (ServiceClientProxyManager.fresh "add" "srv/Add").response_queue_ = [] ∧
      (service_client_callback (ServiceClientProxyManager.fresh "add" "srv/Add") 42
        7).response_queue_ = [(none, 0, 42)] ∧
      (service_client_callback (ServiceClientProxyManager.fresh "add" "srv/Add") 42
        7).response_queue_ ≠
          (ServiceClientProxyManager.fresh "add" "srv/Add").response_queue_ := by
  decide

/-! ## The step relation -/

theorem step_load (s s1 : System) (client_proxy : GenericClient)
    (hstep : s.step (Action.load client_proxy) = some s1) :
    s1 = { manager := s.manager
           calls := s.calls ++
             [{ client_proxy := client_proxy, send_index := s.manager.proxy_send_request_index,
                send_pc := SendPc.loaded, callback_pc := CallbackPc.waiting }] } := by
  simp only [System.step, Option.some.injEq] at hstep
  exact hstep.symm

theorem step_increment (s s1 : System) (call : Nat)
    (hstep : s.step (Action.increment call) = some s1) :
    ∃ c, s.calls[call]? = some c ∧ c.send_pc = SendPc.loaded ∧
      s1 = { manager := increment_send_index s.manager
             calls := s.calls.set call { c with send_pc := SendPc.allocated } } := by
  simp only [System.step] at hstep
  split at hstep
  · cases hstep
  · next c hc =>
    split at hstep
    · next hpc =>
      simp only [Option.some.injEq] at hstep
      exact ⟨c, hc, hpc, hstep.symm⟩
    · cases hstep

theorem step_submit (s s1 : System) (call : Nat) (request_id : Int)
    (hstep : s.step (Action.submit call request_id) = some s1) :
    ∃ c, s.calls[call]? = some c ∧ c.send_pc = SendPc.allocated ∧
      s1 = { manager := s.manager
             calls := s.calls.set call { c with send_pc := SendPc.submitted request_id } } := by
  simp only [System.step] at hstep
  split at hstep
  · cases hstep
  · next c hc =>
    split at hstep
    · next hpc =>
      simp only [Option.some.injEq] at hstep
      exact ⟨c, hc, hpc, hstep.symm⟩
    · cases hstep

theorem step_store (s s1 : System) (call : Nat)
    (hstep : s.step (Action.store call) = some s1) :
    ∃ c sequence, s.calls[call]? = some c ∧ c.send_pc = SendPc.submitted sequence ∧
      s1 = { manager := save_send_info s.manager c.send_index c.client_proxy sequence
             calls := s.calls.set call { c with send_pc := SendPc.stored sequence } } := by
  simp only [System.step] at hstep
  split at hstep
  · cases hstep
  · next c hc =>
    split at hstep
    · next sequence hpc =>
      simp only [Option.some.injEq] at hstep
      exact ⟨c, sequence, hc, hpc, hstep.symm⟩
    · cases hstep

theorem step_take (s s1 : System) (call : Nat) (response : SharedResponse)
    (hstep : s.step (Action.take call response) = some s1) :
    ∃ c, s.calls[call]? = some c ∧ c.send_pc ≠ SendPc.loaded ∧
      c.send_pc ≠ SendPc.allocated ∧ c.callback_pc = CallbackPc.waiting ∧
      s1 = { manager := (take_send_info s.manager c.send_index).2
             calls := s.calls.set call
               { c with
                 callback_pc :=
                   CallbackPc.took (take_send_info s.manager c.send_index).1 response } } := by
  simp only [System.step] at hstep
  split at hstep
  · cases hstep
  · next c hc =>
    split at hstep
    · cases hstep
    · cases hstep
    · next hcb hloaded hallocated =>
      simp only [Option.some.injEq] at hstep
      exact ⟨c, hc, fun h => hloaded h, fun h => hallocated h, hcb, hstep.symm⟩
    · cases hstep

theorem step_push (s s1 : System) (call : Nat)
    (hstep : s.step (Action.push call) = some s1) :
    ∃ c info response, s.calls[call]? = some c ∧
      c.callback_pc = CallbackPc.took info response ∧
      s1 = { manager := enqueue s.manager info.1 info.2 response
             calls := s.calls.set call
               { c with callback_pc := CallbackPc.done info response } } := by
  simp only [System.step] at hstep
  split at hstep
  · cases hstep
  · next c hc =>
    split at hstep
    · next info response hpc =>
      simp only [Option.some.injEq] at hstep
      exact ⟨c, info, response, hc, hpc, hstep.symm⟩
    · cases hstep

theorem take_send_info_table (m : ServiceClientProxyManager) (send_index : Nat) :
    (take_send_info m send_index).2.client_proxy_futures_with_info_ =
      m.client_proxy_futures_with_info_.erase send_index := by
  simp [take_send_info, subscript_erase]

theorem take_send_info_value (m : ServiceClientProxyManager) (send_index : Nat) :
    (take_send_info m send_index).1 =
      (m.client_proxy_futures_with_info_.lookup send_index).getD (none, 0) := by
  simp [take_send_info, subscript_value]

theorem getElem?_lt_length (calls : List SendCall) (i : Nat) (c : SendCall)
    (hc : calls[i]? = some c) : i < calls.length := by
  rcases List.getElem?_eq_some_iff.mp hc with ⟨h, _⟩
  exact h

/-- A call of the list extended by one call is a call of the list, or the new
call at the end. -/
theorem getElem?_append_one (calls : List SendCall) (new : SendCall) (i : Nat) (c : SendCall)
    (hc : (calls ++ [new])[i]? = some c) :
    calls[i]? = some c ∨ (i = calls.length ∧ c = new) := by
  rw [List.getElem?_append] at hc
  split at hc
  · exact Or.inl hc
  · next hge =>
    have hlen : i = calls.length := by
      by_contra hne
      have hpos : i - calls.length ≠ 0 := by omega
      obtain ⟨j, hj⟩ := Nat.exists_eq_succ_of_ne_zero hpos
      rw [hj] at hc
      simp at hc
    subst hlen
    simp only [Nat.sub_self, List.getElem?_cons_zero, Option.some.injEq] at hc
    exact Or.inr ⟨rfl, hc.symm⟩

/-- After one call of the list is replaced by a call with the same send index,
every position holds a call with the send index it had. -/
theorem getElem?_set_index (calls : List SendCall) (other : Nat) (b b1 : SendCall)
    (hb : calls[other]? = some b) (hindex : b1.send_index = b.send_index)
    (j : Nat) (c : SendCall) (hc : calls[j]? = some c) :
    ∃ c1, (calls.set other b1)[j]? = some c1 ∧ c1.send_index = c.send_index := by
  by_cases heq : other = j
  · subst heq
    rw [hb] at hc
    cases hc
    exact ⟨b1, List.getElem?_set_self (getElem?_lt_length calls other b hb), hindex⟩
  · rw [List.getElem?_set_ne heq]
    exact ⟨c, hc, rfl⟩

/-- Replacing one call and the manager keeps the invariant when the send
index of the call is kept, the table is untouched at every other key, and the
replaced call is consistent with the new entry under its index. -/
theorem invariant_update (s : System) (hinv : s.invariant) (other : Nat) (b b1 : SendCall)
    (m1 : ServiceClientProxyManager)
    (hb : s.calls[other]? = some b)
    (hindex : b1.send_index = b.send_index)
    (hother : ∀ key, key ≠ b.send_index →
      m1.client_proxy_futures_with_info_.lookup key =
        s.manager.client_proxy_futures_with_info_.lookup key)
    (hcall :
      SendCall.consistent (s.manager.client_proxy_futures_with_info_.lookup b.send_index) b →
      SendCall.consistent (m1.client_proxy_futures_with_info_.lookup b.send_index) b1) :
    System.invariant { manager := m1, calls := s.calls.set other b1 } := by
  obtain ⟨hkeys, hcons⟩ := hinv
  have hlt : other < s.calls.length := getElem?_lt_length s.calls other b hb
  have hsole : ∀ i c, s.calls[i]? = some c →
      System.sole_holder { manager := m1, calls := s.calls.set other b1 } i c.send_index →
      s.sole_holder i c.send_index := by
    intro i c _ hnew j a ha hsame
    obtain ⟨a1, ha1, hsame1⟩ := getElem?_set_index s.calls other b b1 hb hindex j a ha
    exact hnew j a1 ha1 (hsame1.trans hsame)
  constructor
  · intro key hkey
    by_cases hk : key = b.send_index
    · exact ⟨other, b1, List.getElem?_set_self hlt, hindex.trans hk.symm⟩
    · have hold : key ∈ s.manager.client_proxy_futures_with_info_ := by
        rw [← AList.lookup_isSome] at hkey ⊢
        rw [← hother key hk]
        exact hkey
      obtain ⟨i, c, hc, hci⟩ := hkeys key hold
      obtain ⟨c1, hc1, hci1⟩ := getElem?_set_index s.calls other b b1 hb hindex i c hc
      exact ⟨i, c1, hc1, hci1.trans hci⟩
  · intro i ci hi hnew
    by_cases heq : other = i
    · subst heq
      simp only at hi
      rw [List.getElem?_set_self hlt] at hi
      cases hi
      rw [hindex] at hnew ⊢
      exact hcall (hcons other b hb (hsole other b hb hnew))
    · simp only at hi
      rw [List.getElem?_set_ne heq] at hi
      have hne : ci.send_index ≠ b.send_index := by
        intro hsame
        exact heq (hnew other b1 (List.getElem?_set_self hlt) (hindex.trans hsame.symm))
      simp only
      rw [hother ci.send_index hne]
      exact hcons i ci hi (hsole i ci hi hnew)

theorem invariant_load (s : System) (hinv : s.invariant) (client_proxy : GenericClient) :
    System.invariant
      { manager := s.manager
        calls := s.calls ++
          [{ client_proxy := client_proxy, send_index := s.manager.proxy_send_request_index,
             send_pc := SendPc.loaded, callback_pc := CallbackPc.waiting }] } := by
  obtain ⟨hkeys, hcons⟩ := hinv
  constructor
  · intro key hkey
    obtain ⟨i, c, hc, hci⟩ := hkeys key hkey
    refine ⟨i, c, ?_, hci⟩
    simp only
    rw [List.getElem?_append_left (getElem?_lt_length s.calls i c hc)]
    exact hc
  · intro i ci hi hnew
    have hold : ∀ j a, s.calls[j]? = some a → a.send_index = ci.send_index → j = i := by
      intro j a ha hsame
      refine hnew j a ?_ hsame
      simp only
      rw [List.getElem?_append_left (getElem?_lt_length s.calls j a ha)]
      exact ha
    rcases getElem?_append_one s.calls _ i ci hi with h | ⟨hlen, hci⟩
    · exact hcons i ci h hold
    · have hnone : s.manager.client_proxy_futures_with_info_.lookup ci.send_index = none := by
        rw [AList.lookup_eq_none]
        intro hmem
        obtain ⟨j, a, ha, hsame⟩ := hkeys ci.send_index hmem
        have hj := hold j a ha hsame
        have hlt := getElem?_lt_length s.calls j a ha
        omega
      simp only
      rw [hnone, hci]
      simp only [SendCall.consistent, CallbackPc.info]

/-- Every enabled step keeps the invariant. -/
theorem invariant_step (s s1 : System) (a : Action) (hinv : s.invariant)
    (hstep : s.step a = some s1) : s1.invariant := by
  cases a with
  | load client_proxy =>
    rw [step_load s s1 client_proxy hstep]
    exact invariant_load s hinv client_proxy
  | increment call =>
    obtain ⟨c, hc, hpc, rfl⟩ := step_increment s s1 call hstep
    refine invariant_update s hinv call c _ _ hc rfl (fun _ _ => rfl) ?_
    intro hcons
    cases hcb : c.callback_pc.info with
    | none =>
      simp only [SendCall.consistent, hpc, hcb] at hcons
      simp only [SendCall.consistent, hcb, increment_send_index]
      exact hcons
    | some info =>
      simp only [SendCall.consistent, hpc, hcb] at hcons
  | submit call request_id =>
    obtain ⟨c, hc, hpc, rfl⟩ := step_submit s s1 call request_id hstep
    refine invariant_update s hinv call c _ s.manager hc rfl (fun _ _ => rfl) ?_
    intro hcons
    cases hcb : c.callback_pc.info with
    | none =>
      simp only [SendCall.consistent, hpc, hcb] at hcons ⊢
      exact hcons
    | some info =>
      simp only [SendCall.consistent, hpc, hcb] at hcons
  | store call =>
    obtain ⟨c, sequence, hc, hpc, rfl⟩ := step_store s s1 call hstep
    refine invariant_update s hinv call c _ _ hc rfl ?_ ?_
    · intro key hkey
      exact AList.lookup_insert_ne hkey
    · intro hcons
      have hnew : (save_send_info s.manager c.send_index c.client_proxy
          sequence).client_proxy_futures_with_info_.lookup c.send_index =
          some (some c.client_proxy, sequence) := AList.lookup_insert _
      rw [hnew]
      cases hcb : c.callback_pc.info with
      | none =>
        simp only [SendCall.consistent, hcb]
      | some info =>
        simp only [SendCall.consistent, hpc, hcb] at hcons
        simp only [SendCall.consistent, hcb]
        exact Or.inr ⟨hcons.1, trivial⟩
  | take call response =>
    obtain ⟨c, hc, hloaded, hallocated, hcb, rfl⟩ := step_take s s1 call response hstep
    refine invariant_update s hinv call c _ _ hc rfl ?_ ?_
    · intro key hkey
      rw [take_send_info_table]
      exact AList.lookup_erase_ne hkey
    · intro hcons
      rw [take_send_info_table, take_send_info_value, AList.lookup_erase]
      cases hsend : c.send_pc with
      | loaded => exact absurd hsend hloaded
      | allocated => exact absurd hsend hallocated
      | submitted sequence =>
        simp only [SendCall.consistent, hsend, hcb, CallbackPc.info] at hcons
        simp only [SendCall.consistent, hsend, CallbackPc.info, hcons, Option.getD_none,
          and_self]
      | stored sequence =>
        simp only [SendCall.consistent, hsend, hcb, CallbackPc.info] at hcons
        simp only [SendCall.consistent, hsend, CallbackPc.info, hcons, Option.getD_some]
        exact Or.inl ⟨trivial, trivial⟩
  | push call =>
    obtain ⟨c, info, response, hc, hcb, rfl⟩ := step_push s s1 call hstep
    refine invariant_update s hinv call c _ _ hc rfl (fun _ _ => rfl) ?_
    intro hcons
    simp only [SendCall.consistent, hcb, CallbackPc.info] at hcons
    simp only [SendCall.consistent, CallbackPc.info, enqueue]
    exact hcons

/-- Every run keeps the invariant. -/
theorem invariant_run (actions : List Action) :
    ∀ s s1 : System, s.invariant → s.run actions = some s1 → s1.invariant := by
  induction actions with
  | nil =>
    intro s s1 hinv hrun
    simp only [System.run, Option.some.injEq] at hrun
    rw [← hrun]
    exact hinv
  | cons a rest ih =>
    intro s s1 hinv hrun
    simp only [System.run] at hrun
    cases hstep : s.step a with
    | none => rw [hstep] at hrun; cases hrun
    | some s2 =>
      rw [hstep] at hrun
      exact ih s2 s1 (invariant_step s s2 a hinv hstep) hrun

theorem invariant_start (base_service_name service_type : String) :
    (System.start (ServiceClientProxyManager.fresh base_service_name service_type)).invariant := by
  constructor
  · intro key hkey
    exact absurd hkey (AList.not_mem_empty key)
  · intro i c hi
    simp [System.start] at hi

theorem kept_set (calls : List SendCall) (call other : Nat) (c b b1 : SendCall)
    (hc : calls[call]? = some c) (hb : calls[other]? = some b) (hkept : SendCall.kept b b1) :
    ∃ c1, (calls.set other b1)[call]? = some c1 ∧ SendCall.kept c c1 := by
  by_cases heq : other = call
  · subst heq
    rw [hc] at hb
    cases hb
    exact ⟨b1, List.getElem?_set_self (getElem?_lt_length calls other c hc), hkept⟩
  · rw [List.getElem?_set_ne heq]
    exact ⟨c, hc, rfl, rfl, fun _ h => h, fun _ h => h⟩

theorem kept_step (s s1 : System) (a : Action) (call : Nat) (c : SendCall)
    (hstep : s.step a = some s1) (hc : s.calls[call]? = some c) :
    ∃ c1, s1.calls[call]? = some c1 ∧ SendCall.kept c c1 := by
  cases a with
  | load client_proxy =>
    rw [step_load s s1 client_proxy hstep]
    refine ⟨c, ?_, rfl, rfl, fun _ h => h, fun _ h => h⟩
    simp only
    rw [List.getElem?_append_left (getElem?_lt_length s.calls call c hc)]
    exact hc
  | increment other =>
    obtain ⟨b, hb, hpc, rfl⟩ := step_increment s s1 other hstep
    refine kept_set s.calls call other c b _ hc hb ⟨rfl, rfl, ?_, fun _ h => h⟩
    intro sequence hstored
    rw [hpc] at hstored
    cases hstored
  | submit other request_id =>
    obtain ⟨b, hb, hpc, rfl⟩ := step_submit s s1 other request_id hstep
    refine kept_set s.calls call other c b _ hc hb ⟨rfl, rfl, ?_, fun _ h => h⟩
    intro sequence hstored
    rw [hpc] at hstored
    cases hstored
  | store other =>
    obtain ⟨b, sequence, hb, hpc, rfl⟩ := step_store s s1 other hstep
    refine kept_set s.calls call other c b _ hc hb ⟨rfl, rfl, ?_, fun _ h => h⟩
    intro sequence hstored
    rw [hpc] at hstored
    cases hstored
  | take other response =>
    obtain ⟨b, hb, _, _, hcb, rfl⟩ := step_take s s1 other response hstep
    refine kept_set s.calls call other c b _ hc hb ⟨rfl, rfl, fun _ h => h, ?_⟩
    intro info hinfo
    rw [hcb] at hinfo
    cases hinfo
  | push other =>
    obtain ⟨b, info, response, hb, hcb, rfl⟩ := step_push s s1 other hstep
    refine kept_set s.calls call other c b _ hc hb ⟨rfl, rfl, fun _ h => h, ?_⟩
    intro info1 hinfo
    rw [hcb] at hinfo
    exact hinfo

theorem kept_run (actions : List Action) :
    ∀ (s s1 : System) (call : Nat) (c : SendCall), s.run actions = some s1 →
      s.calls[call]? = some c → ∃ c1, s1.calls[call]? = some c1 ∧ SendCall.kept c c1 := by
  induction actions with
  | nil =>
    intro s s1 call c hrun hc
    simp only [System.run, Option.some.injEq] at hrun
    rw [← hrun]
    exact ⟨c, hc, rfl, rfl, fun _ h => h, fun _ h => h⟩
  | cons a rest ih =>
    intro s s1 call c hrun hc
    simp only [System.run] at hrun
    cases hstep : s.step a with
    | none => rw [hstep] at hrun; cases hrun
    | some s2 =>
      rw [hstep] at hrun
      obtain ⟨c2, hc2, hk2⟩ := kept_step s s2 a call c hstep hc
      obtain ⟨c1, hc1, hk1⟩ := ih s2 s1 call c2 hrun hc2
      refine ⟨c1, hc1, hk1.1.trans hk2.1, hk1.2.1.trans hk2.2.1, ?_, ?_⟩
      · intro sequence h
        exact hk1.2.2.1 sequence (hk2.2.2.1 sequence h)
      · intro info h
        exact hk1.2.2.2 info (hk2.2.2.2 info h)

/-- C10 as the code has it: in every state reached from a fresh manager by the
steps of `async_send_request` (load the counter, increment it, submit, store)
and `service_client_callback` (look up and erase, enqueue), a call that has
stored its entry, whose completion has not been delivered and whose send index
is held by no other call has its entry in the table, under its send index,
with its handle and sequence number.  The completion step of such a call is
enabled, reads exactly that entry and erases it, and in every state reached
afterwards in which still no other call holds that index the table has no
entry for it. -/
theorem stored_entry_until_completion (base_service_name service_type : String)
    (actions : List Action) (s : System) (call : Nat) (c : SendCall) (sequence : Int)
    (hrun : (System.start (ServiceClientProxyManager.fresh base_service_name
      service_type)).run actions = some s)
    (hcall : s.calls[call]? = some c)
    (hstored : c.send_pc = SendPc.stored sequence)
    (hwaiting : c.callback_pc = CallbackPc.waiting)
    (hsole : s.sole_holder call c.send_index) :
    s.manager.client_proxy_futures_with_info_.lookup c.send_index =
        some (some c.client_proxy, sequence) ∧
    ∀ response, ∃ s1, s.step (Action.take call response) = some s1 ∧
      s1.calls[call]? =
        some { c with
          callback_pc := CallbackPc.took (some c.client_proxy, sequence) response } ∧
      s1.manager.client_proxy_futures_with_info_.lookup c.send_index = none ∧
      ∀ more s2, s1.run more = some s2 → s2.sole_holder call c.send_index →
        s2.manager.client_proxy_futures_with_info_.lookup c.send_index = none := by
  have hinv := invariant_run actions _ s (invariant_start base_service_name service_type) hrun
  have hlt : call < s.calls.length := getElem?_lt_length s.calls call c hcall
  have hentry : s.manager.client_proxy_futures_with_info_.lookup c.send_index =
      some (some c.client_proxy, sequence) := by
    have hcons := hinv.2 call c hcall hsole
    simp only [SendCall.consistent, hstored, hwaiting, CallbackPc.info] at hcons
    exact hcons
  refine ⟨hentry, ?_⟩
  intro response
  have hvalue : (take_send_info s.manager c.send_index).1 = (some c.client_proxy, sequence) := by
    rw [take_send_info_value, hentry]
    rfl
  have htake : ∃ s1, s.step (Action.take call response) = some s1 ∧
      s1.calls[call]? =
        some { c with
          callback_pc := CallbackPc.took (some c.client_proxy, sequence) response } ∧
      s1.manager.client_proxy_futures_with_info_.lookup c.send_index = none := by
    refine ⟨{ manager := (take_send_info s.manager c.send_index).2
              calls := s.calls.set call
                { c with
                  callback_pc :=
                    CallbackPc.took (take_send_info s.manager c.send_index).1 response } },
      ?_, ?_, ?_⟩
    · simp only [System.step, hcall, hstored, hwaiting]
    · simp only
      rw [List.getElem?_set_self hlt, hvalue]
    · simp only
      rw [take_send_info_table]
      exact AList.lookup_erase _ _
  obtain ⟨s1, hstep, hc1, hnone⟩ := htake
  refine ⟨s1, hstep, hc1, hnone, ?_⟩
  intro more s2 hmore hsole2
  have hinv1 := invariant_step s s1 _ hinv hstep
  have hinv2 := invariant_run more s1 s2 hinv1 hmore
  obtain ⟨c2, hc2, hclient, hindex, hpc2, hinfo2⟩ := kept_run more s1 s2 call _ hmore hc1
  have hindex2 : c2.send_index = c.send_index := hindex
  have hcons := hinv2.2 call c2 hc2 (by rw [hindex2]; exact hsole2)
  have hpc := hpc2 sequence hstored
  have hinfo := hinfo2 (some c.client_proxy, sequence) rfl
  simp only [SendCall.consistent, hpc, hinfo, hclient, hindex2] at hcons
  rw [← hindex2]
  rcases hcons with h | h
  · exact h.2
  · have := h.1
    simp at this

/-- At `demo_system`, reached by `demo_actions`, call 0 has stored its entry,
its completion is not delivered and it is the only call: the table maps index
0 to the handle and sequence number 5. -/
theorem stored_entry_until_completion_witness :
    (System.start (ServiceClientProxyManager.fresh "add" "srv/Add")).run demo_actions =
        some demo_system ∧
      demo_system.sole_holder 0 0 ∧
      demo_system.manager.client_proxy_futures_with_info_.lookup 0 =
        some (some demo_client, 5) :=
  have hsole : demo_system.sole_holder 0 0 := by
    intro other b hb _
    cases other with
    | zero => rfl
    | succ n => simp [demo_system] at hb
  ⟨rfl, hsole,
    (stored_entry_until_completion "add" "srv/Add" demo_actions demo_system 0
      { client_proxy := demo_client, send_index := 0, send_pc := SendPc.stored 5,
        callback_pc := CallbackPc.waiting } 5 rfl rfl rfl rfl hsole).1⟩

/-- C10 fails on the code.  After the load, the increment and the submission
the request of call 0 is accepted by the provider (sequence number 5), its
completion is not delivered, and the table has no entry for index 0.  When the
completion is delivered before the store, the callback reads `(nullptr, 0)`
and enqueues it, and the entry stored afterwards stays in the table although
the completion has been processed.  When two calls load the counter before
either increments it, both hold index 0 and the second store replaces the
entry of the first, which is stored and not completed. -/
theorem submitted_without_entry :
    ((System.start (ServiceClientProxyManager.fresh "add" "srv/Add")).run
        [Action.load demo_client, Action.increment 0, Action.submit 0 5]).map
      (fun s => (s.calls, s.manager.client_proxy_futures_with_info_.lookup 0)) =
      some ([{ client_proxy := demo_client, send_index := 0, send_pc := SendPc.submitted 5,
               callback_pc := CallbackPc.waiting }], none) ∧
    ((System.start (ServiceClientProxyManager.fresh "add" "srv/Add")).run
        [Action.load demo_client, Action.increment 0, Action.submit 0 5, Action.take 0 42,
          Action.push 0, Action.store 0]).map
      (fun s => (s.calls, s.manager.client_proxy_futures_with_info_.lookup 0,
        s.manager.response_queue_)) =
      some ([{ client_proxy := demo_client, send_index := 0, send_pc := SendPc.stored 5,
               callback_pc := CallbackPc.done (none, 0) 42 }],
        some (some demo_client, 5), [(none, 0, 42)]) ∧
    ((System.start (ServiceClientProxyManager.fresh "add" "srv/Add")).run
        demo_actions_shared).map
      (fun s => (s.calls, s.manager.client_proxy_futures_with_info_.lookup 0)) =
      some ([{ client_proxy := demo_client, send_index := 0, send_pc := SendPc.stored 5,
               callback_pc := CallbackPc.waiting },
             { client_proxy := demo_client_b, send_index := 0, send_pc := SendPc.stored 6,
               callback_pc := CallbackPc.waiting }],
        some (some demo_client_b, 6)) :=
  ⟨rfl, rfl, rfl⟩
/-! ## Two callers of `get_send_index` -/

/-- C9 fails on the code: when both callers execute `load()` before either
executes `++` (schedule first, second, first, second), both calls of
`get_send_index` return 0 on a fresh manager and the counter ends at 2.  When
the first caller finishes before the second starts they return 0 and 1. -/
theorem get_send_index_race :
    (TwoCallers.run (TwoCallers.start (ServiceClientProxyManager.fresh "add" "srv/Add"))
        [false, true, false, true]).first = IndexPc.returned 0 ∧
      (TwoCallers.run (TwoCallers.start (ServiceClientProxyManager.fresh "add" "srv/Add"))
        [false, true, false, true]).second = IndexPc.returned 0 ∧
      (TwoCallers.run (TwoCallers.start (ServiceClientProxyManager.fresh "add" "srv/Add"))
        [false, true, false, true]).manager.proxy_send_request_index = 2 ∧
      (TwoCallers.run (TwoCallers.start (ServiceClientProxyManager.fresh "add" "srv/Add"))
        [false, false, true, true]).first = IndexPc.returned 0 ∧
      (TwoCallers.run (TwoCallers.start (ServiceClientProxyManager.fresh "add" "srv/Add"))
        [false, false, true, true]).second = IndexPc.returned 1 := by
  decide

end ServiceLoadBalancing
